import Mathlib

/-!
Verification of the browser-chrome state machine in `src/app.rs` of
aapelix/simple-web-browser: the back/forward history model, the
serialized event-handler loop, the failed-load fallback chain, and the
bookmark-tree-to-menu materialization.

The embedding follows `start_browser` and `AppState::new` directly.
Rust `Vec<String>` becomes `List String`; the forward stack is a
`List (Option String)` because the source pushes `back_urls.pop()`
(an `Option<String>`) onto `fwd_urls` unchanged.  A Rust panic
(an `unwrap` of `None`, or indexing an empty vector) is modeled by the
handler returning `none`.
-/

/-- Event kinds, mirroring `enum EventType` in `app.rs`. -/
inductive EventType where
  | BackClicked
  | ForwardClicked
  | RefreshClicked
  | ChangedPage
  | ChangePage
  | FailedChangePage
  | LoginRegister
deriving DecidableEq

/-- Mirrors `struct Event` with fields `tp` and `url`. -/
structure Event where
  tp : EventType
  url : String
deriving DecidableEq

/-- The mutable local state captured by the `event_handler` closure in
`start_browser`: `via_nav_btns`, `back_urls`, `fwd_urls`, `err_url`.
`back_urls` is oldest-first and its last element is the page currently
displayed; `fwd_urls` holds the options pushed by `back_urls.pop()`. -/
structure BrowserState where
  via_nav_btns : Bool
  back_urls : List String
  fwd_urls : List (Option String)
  err_url : String
deriving DecidableEq

/-- Commands the handler issues to the toolkit layer:
`web_view.load_uri`, `web_view.reload`, `tb_buff.set_text`, and showing
the login dialog. -/
inductive SinkCmd where
  | loadUri (url : String)
  | reload
  | setText (url : String)
  | showDialog
deriving DecidableEq

/-- Rust `str::replace(pat, rep)` on character lists, written with
explicit fuel so that it is structurally recursive (`fuel = s.length`
always suffices: every step consumes at least one character of `s`).
An empty pattern never matches here; the source only ever replaces the
three-character substitution token of the search template. -/
def replaceAllF (pat rep : List Char) : Nat → List Char → List Char
  | _, [] => []
  | 0, s => s
  | fuel + 1, c :: rest =>
    if pat ≠ [] ∧ pat <+: (c :: rest) then
      rep ++ replaceAllF pat rep fuel (List.drop pat.length (c :: rest))
    else
      c :: replaceAllF pat rep fuel rest

/-- Replace every occurrence of `pat` in `s` by `rep`, left to right,
non-overlapping, as Rust `str::replace` does. -/
def replaceAll (pat rep s : List Char) : List Char :=
  replaceAllF pat rep s.length s

/-- Rust `s.replace(pat, rep)` on `String`. -/
def rustReplace (s pat rep : String) : String :=
  String.mk (replaceAll pat.data rep.data s.data)

/-- The substitution token of the search-engine template (a dollar sign
followed by an opening and a closing curly brace), written with escapes. -/
def placeholder : String := "$\x7b\x7d"

/-- One iteration of the `event_handler` loop in `start_browser`
(lines 57-153 of `app.rs`).  `homeDir` models the result of
`home_dir()`; `searchEngine` is `cfg.search_engine`.  A `none` result
models a Rust panic: the `unwrap` of `fwd_urls[0]`, the `unwrap` of
`home_dir()`, or the index `back_urls[back_urls.len() - 1]` taken on an
empty vector. -/
def handleEvent (homeDir : Option String) (searchEngine : String)
    (s : BrowserState) (e : Event) : Option (BrowserState × List SinkCmd) :=
  match e.tp with
  | EventType.BackClicked =>
    if s.back_urls.length > 1 then
      let popped := s.back_urls.getLast?
      let back' := s.back_urls.dropLast
      match back'.getLast? with
      | none => none
      | some cur =>
        some ({ s with via_nav_btns := true, back_urls := back',
                       fwd_urls := s.fwd_urls ++ [popped] },
              [SinkCmd.loadUri cur, SinkCmd.setText cur])
    else
      some (s, [])
  | EventType.ForwardClicked =>
    if s.fwd_urls.length > 0 then
      match s.fwd_urls.head? with
      | none => none
      | some none => none
      | some (some u) =>
        let back' := s.back_urls ++ [u]
        match back'.getLast? with
        | none => none
        | some cur =>
          some ({ s with via_nav_btns := true, back_urls := back',
                         fwd_urls := s.fwd_urls.drop 1 },
                [SinkCmd.loadUri cur, SinkCmd.setText cur])
    else
      some (s, [])
  | EventType.RefreshClicked =>
    some ({ s with via_nav_btns := true }, [SinkCmd.reload])
  | EventType.ChangedPage =>
    if s.via_nav_btns then
      some ({ s with via_nav_btns := false }, [])
    else
      some ({ s with fwd_urls := [], back_urls := s.back_urls ++ [e.url] },
            [SinkCmd.setText e.url])
  | EventType.ChangePage =>
    some (s, [SinkCmd.loadUri e.url])
  | EventType.FailedChangePage =>
    if e.url = s.err_url then
      match homeDir with
      | none => none
      | some hd => some (s, [SinkCmd.loadUri ("file://" ++ hd)])
    else
      let errUrl := rustReplace searchEngine placeholder e.url
      some ({ s with err_url := errUrl }, [SinkCmd.loadUri errUrl])
  | EventType.LoginRegister =>
    some (s, [SinkCmd.showDialog])

/-- Runs the handler loop over a list of events, threading the state;
`none` if any event panics.  Sink commands are discarded. -/
def handleEvents (homeDir : Option String) (searchEngine : String)
    (s : BrowserState) : List Event → Option BrowserState
  | [] => some s
  | e :: rest =>
    match handleEvent homeDir searchEngine s e with
    | none => none
    | some (s', _) => handleEvents homeDir searchEngine s' rest

/-- Initial state in `start_browser`: `back_urls` seeded with
`cfg.start_page`, `fwd_urls` empty, the suppression flag clear, no
recorded fallback url. -/
def initState (startPage : String) : BrowserState :=
  ⟨false, [startPage], [], ""⟩

/-- The currently displayed page: the last element of `back_urls`. -/
def currentUrl (s : BrowserState) : Option String :=
  s.back_urls.getLast?

/-- A materialized bookmark menu node: a selectable item (whose
activation sends a `ChangePage` event for its url) or a titled
submenu. -/
inductive MenuNode where
  | Leaf (label url : String)
  | Group (label : String) (children : List MenuNode)

/-- Menu contribution of one bookmark folder: the `match folder.len()`
in `AppState::new` (lines 300-367 of `app.rs`).  An entry is a
`Vec<String>` read at index 0 (label) and index 1 (url); an
out-of-range read, a Rust panic, is modeled as `""`.  Note that in the
single-entry branch the source reads `bm[0]` for BOTH the label and
the url of the item. -/
def materializeFolder (folder : List (List String)) : List MenuNode :=
  match folder with
  | [] => []
  | [bm] => [MenuNode.Leaf (bm.getD 0 "") (bm.getD 0 "")]
  | first :: rest =>
    [MenuNode.Group (first.getD 0 "")
      (rest.map fun bookmark =>
        MenuNode.Leaf (bookmark.getD 0 "") (bookmark.getD 1 ""))]

/-- The whole bookmark menu: folders processed in configuration order,
their contributions appended. -/
def materialize (folders : List (List (List String))) : List MenuNode :=
  (folders.map materializeFolder).flatten

/-- The fields of `struct AppConfig` (the GTK margin is a plain
number here; `local` is a Lean keyword, so that field is `localFlag`). -/
structure AppConfig where
  start_page : String
  search_engine : String
  localFlag : Bool
  bookmarks : List (List (List String))
  username : String
  pass_enc : String
  margin : Nat
deriving DecidableEq

/-- The `impl Default for AppConfig` values. -/
def AppConfig.default : AppConfig :=
  ⟨"https://duckduckgo.org", "https://duckduckgo.com/?q=$\x7b\x7d",
   false, [], "", "", 10⟩

/-- C7: with the suppression flag set, a `ChangedPage` event only clears
the flag: `back_urls` and `fwd_urls` are untouched and no sink command
(in particular no address-field update) is issued. -/
theorem changedPage_suppressed_frame (hd : Option String) (se : String)
    (back : List String) (fwd : List (Option String)) (err url : String) :
    handleEvent hd se ⟨true, back, fwd, err⟩ ⟨EventType.ChangedPage, url⟩ =
      some (⟨false, back, fwd, err⟩, []) := rfl

/-- C8: with exactly one visited entry, `BackClicked` is a no-op: the
state (suppression flag included) is unchanged and no navigation or
address-field command is issued. -/
theorem backClicked_single_visited_noop (hd : Option String) (se : String)
    (via : Bool) (x : String) (fwd : List (Option String)) (err u : String) :
    handleEvent hd se ⟨via, [x], fwd, err⟩ ⟨EventType.BackClicked, u⟩ =
      some (⟨via, [x], fwd, err⟩, []) := rfl

/-- C1 as stated fails on the code: after visits of "y" and "z" on top
of start page "x" and two `BackClicked` events, "x" is current, but the
next `ForwardClicked` consumes and loads "z" (the front of `fwd_urls`,
the OLDEST undone page), leaving "y" on the forward queue: "y" is not
the page returned. -/
theorem back_back_forward_claim_cex :
    handleEvents (some "/home/user") "https://duckduckgo.com/?q=$\x7b\x7d"
        (initState "x")
        [⟨EventType.ChangedPage, "y"⟩, ⟨EventType.ChangedPage, "z"⟩,
         ⟨EventType.BackClicked, ""⟩, ⟨EventType.BackClicked, ""⟩,
         ⟨EventType.ForwardClicked, ""⟩] =
      some ⟨true, ["x", "z"], [some "y"], ""⟩ ∧
    (some "z" : Option String) ≠ some "y" :=
  ⟨rfl, by decide⟩

/-- C1 amended: from visited x, y, z and an empty forward queue, two
`BackClicked` events leave "x" current and `fwd_urls` equal to
`[some z, some y]` in vector order; the next `ForwardClicked` pops the
FRONT of that queue, so it returns and loads z, the first-undone
(oldest) page, not the most recently undone one. -/
theorem back_back_forward_consumes_oldest (hd : Option String)
    (se : String) (x y z : String) :
    handleEvents hd se (initState x)
        [⟨EventType.ChangedPage, y⟩, ⟨EventType.ChangedPage, z⟩,
         ⟨EventType.BackClicked, ""⟩, ⟨EventType.BackClicked, ""⟩] =
      some ⟨true, [x], [some z, some y], ""⟩ ∧
    handleEvent hd se ⟨true, [x], [some z, some y], ""⟩
        ⟨EventType.ForwardClicked, ""⟩ =
      some (⟨true, [x, z], [some y], ""⟩,
        [SinkCmd.loadUri z, SinkCmd.setText z]) :=
  ⟨rfl, rfl⟩

/-- C4 as stated fails on the code: from visited x, y with the nonempty
forward queue `[some w]`, `BackClicked` then `ForwardClicked` lands on
"w" (the front of the queue), not back on "y": neither the current
page nor the two sequences are restored. -/
theorem back_forward_roundtrip_cex :
    handleEvents (some "/home/user") "https://duckduckgo.com/?q=$\x7b\x7d"
        ⟨false, ["x", "y"], [some "w"], ""⟩
        [⟨EventType.BackClicked, ""⟩, ⟨EventType.ForwardClicked, ""⟩] =
      some ⟨true, ["x", "w"], [some "y"], ""⟩ ∧
    (["x", "w"] : List String) ≠ ["x", "y"] ∧
    ([some "y"] : List (Option String)) ≠ [some "w"] ∧
    currentUrl ⟨true, ["x", "w"], [some "y"], ""⟩ ≠
      currentUrl ⟨false, ["x", "y"], [some "w"], ""⟩ :=
  ⟨rfl, by decide, by decide, by decide⟩

/-- Helper: `BackClicked` on a state with at least two visited entries
pops the last one onto the back of the forward queue and loads the new
last entry. -/
theorem handleEvent_back (hd : Option String) (se : String) (via : Bool)
    (xs : List String) (y z err : String) (fwd : List (Option String)) :
    handleEvent hd se ⟨via, xs ++ [y, z], fwd, err⟩
        ⟨EventType.BackClicked, ""⟩ =
      some (⟨true, xs ++ [y], fwd ++ [some z], err⟩,
        [SinkCmd.loadUri y, SinkCmd.setText y]) := by
  have hlen : (xs ++ [y, z]).length > 1 := by simp
  have hlast : (xs ++ [y, z]).getLast? = some z := by
    rw [show xs ++ [y, z] = (xs ++ [y]) ++ [z] from by simp,
      List.getLast?_concat]
  have hdrop : (xs ++ [y, z]).dropLast = xs ++ [y] := by
    rw [show xs ++ [y, z] = (xs ++ [y]) ++ [z] from by simp,
      List.dropLast_concat]
  simp [handleEvent, hlen, hlast, hdrop, List.getLast?_concat]

theorem handleEvent_forward (hd : Option String) (se : String) (via : Bool)
    (back : List String) (err u : String) (rest : List (Option String)) :
    handleEvent hd se ⟨via, back, some u :: rest, err⟩
        ⟨EventType.ForwardClicked, ""⟩ =
      some (⟨true, back ++ [u], rest, err⟩,
        [SinkCmd.loadUri u, SinkCmd.setText u]) := by
  simp [handleEvent, List.getLast?_concat]

/-- C4 amended: provided the forward queue is EMPTY before the back
step, `BackClicked` immediately followed by `ForwardClicked` restores
the current page and restores `back_urls` and `fwd_urls` to their exact
prior shapes (the suppression flag is left set by the controls).  With
a nonempty queue the forward step consumes the queue front instead of
the page just popped, and the round trip fails. -/
theorem back_forward_roundtrip_empty_undone (hd : Option String)
    (se : String) (via : Bool) (xs : List String) (y z err : String) :
    handleEvents hd se ⟨via, xs ++ [y, z], [], err⟩
        [⟨EventType.BackClicked, ""⟩, ⟨EventType.ForwardClicked, ""⟩] =
      some ⟨true, xs ++ [y, z], [], err⟩ := by
  have hb := handleEvent_back hd se via xs y z err []
  have hf := handleEvent_forward hd se true (xs ++ [y]) err z []
  simp only [List.nil_append] at hb
  simp only [handleEvents, hb, hf]
  simp

/-- Helper for C6: a nonempty run of `ChangedPage` events with the
suppression flag clear appends the urls in call order, empties the
forward queue at the first event and keeps it empty, and never touches
`err_url` or the flag. -/
theorem handleEvents_changedPage (hd : Option String) (se : String)
    (urls : List String) :
    ∀ (u : String) (back : List String) (fwd : List (Option String))
      (err : String),
      handleEvents hd se ⟨false, back, fwd, err⟩
          ((u :: urls).map fun v => ⟨EventType.ChangedPage, v⟩) =
        some ⟨false, back ++ u :: urls, [], err⟩ := by
  induction urls with
  | nil =>
    intro u back fwd err
    simp [handleEvents, handleEvent]
  | cons u' urls ih =>
    intro u back fwd err
    have h1 : handleEvent hd se ⟨false, back, fwd, err⟩
        ⟨EventType.ChangedPage, u⟩ =
        some (⟨false, back ++ [u], [], err⟩, [SinkCmd.setText u]) := rfl
    have h2 := ih u' (back ++ [u]) [] err
    simp only [List.map_cons, handleEvents, h1] at h2 ⊢
    rw [h2]
    simp

/-- C6: from the seeded initial state, a nonempty sequence of
non-suppressed `ChangedPage` events leaves `back_urls` equal to exactly
the start page followed by the urls in call order (so `visited`
strictly grows by one per call), with an empty forward queue; since the
urls list is universally quantified, the same equation holds after
every nonempty initial segment of the sequence, so `fwd_urls` is empty after
every such call. -/
theorem changedPage_sequence_appends (hd : Option String) (se : String)
    (start u : String) (urls : List String) :
    handleEvents hd se (initState start)
        ((u :: urls).map fun v => ⟨EventType.ChangedPage, v⟩) =
      some ⟨false, start :: u :: urls, [], ""⟩ := by
  have h := handleEvents_changedPage hd se urls u [start] [] ""
  simpa [initState] using h

/-- C2 (code bug): a single-entry folder materializes to a leaf whose
url is the entry LABEL, because the source reads `bm[0]` for both
fields (`let bm_url = bm[0].clone();`): the folder containing the one
entry with label "A" and url "u1" yields an item labeled "A" whose
activation navigates to "A", not to "u1" as the multi-entry branch
(and the claim) would have it. -/
theorem single_entry_folder_uses_label_as_url :
    materializeFolder [["A", "u1"]] = [MenuNode.Leaf "A" "A"] ∧
    materializeFolder [["A", "u1"]] ≠ [MenuNode.Leaf "A" "u1"] := by
  refine ⟨rfl, ?_⟩
  simp [materializeFolder]

/-- C9: an empty folder contributes no menu nodes; a folder with two or
more entries contributes exactly one group titled by the first entry's
label whose children are, in order, leaves built from the remaining
entries (label from field 0, url from field 1); and materialization
distributes over concatenation of folder lists, so folder order is
preserved. -/
theorem folder_materialization (first r : List String)
    (rs : List (List String)) (fs₁ fs₂ : List (List (List String))) :
    materializeFolder [] = [] ∧
    materializeFolder (first :: r :: rs) =
      [MenuNode.Group (first.getD 0 "")
        ((r :: rs).map fun bm =>
          MenuNode.Leaf (bm.getD 0 "") (bm.getD 1 ""))] ∧
    materialize (fs₁ ++ fs₂) = materialize fs₁ ++ materialize fs₂ := by
  refine ⟨rfl, rfl, ?_⟩
  simp [materialize]

/-- Helper: an occurrence inside `c :: rest` that is not at the very
front is an occurrence inside `rest`. -/
theorem contains_cons_shift {α : Type} {pat rest : List α} {c : α}
    (hinf : pat <:+: c :: rest) (hnp : ¬ pat <+: c :: rest) :
    pat <:+: rest := by
  obtain ⟨s, t, hst⟩ := hinf
  cases s with
  | nil => exact absurd ⟨t, by simpa using hst⟩ hnp
  | cons a s' =>
    simp only [List.cons_append] at hst
    injection hst with h1 h2
    exact ⟨s', t, h2⟩

/-- Helper: occurrences are preserved when material is prepended. -/
theorem contains_cons_extend {α : Type} {pat l : List α} (c : α)
    (h : pat <:+: l) : pat <:+: c :: l := by
  obtain ⟨s, t, hst⟩ := h
  exact ⟨c :: s, t, by rw [List.cons_append, List.cons_append, hst]⟩

/-- Helper: whenever the pattern occurs in the subject, the replacement
occurs in the output of `replaceAllF` (given enough fuel). -/
theorem replaceAllF_contains (pat rep : List Char) :
    ∀ (fuel : Nat) (s : List Char), s.length ≤ fuel → pat ≠ [] →
      pat <:+: s → rep <:+: replaceAllF pat rep fuel s := by
  intro fuel
  induction fuel with
  | zero =>
    intro s hlen hne hinf
    cases s with
    | nil =>
      obtain ⟨a, t, hat⟩ := hinf
      simp [List.append_eq_nil] at hat
      exact absurd hat.2.1 hne
    | cons c rest => simp at hlen
  | succ fuel ih =>
    intro s hlen hne hinf
    cases s with
    | nil =>
      obtain ⟨a, t, hat⟩ := hinf
      simp [List.append_eq_nil] at hat
      exact absurd hat.2.1 hne
    | cons c rest =>
      by_cases hc : pat ≠ [] ∧ pat <+: (c :: rest)
      · rw [replaceAllF, if_pos hc]
        exact ⟨[], _, rfl⟩
      · have hnp : ¬ pat <+: (c :: rest) := fun hp => hc ⟨hne, hp⟩
        have hinf' : pat <:+: rest := contains_cons_shift hinf hnp
        have hlen' : rest.length ≤ fuel := by
          simp only [List.length_cons] at hlen
          omega
        rw [replaceAllF, if_neg hc]
        exact contains_cons_extend c (ih rest hlen' hne hinf')

/-- Helper: the replacement occurs in the output of `replaceAll`
whenever the (nonempty) pattern occurs in the subject. -/
theorem replaceAll_contains (pat rep s : List Char) (hne : pat ≠ [])
    (hinf : pat <:+: s) : rep <:+: replaceAll pat rep s :=
  replaceAllF_contains pat rep s.length s le_rfl hne hinf

/-- C3 (code bug): when the url that failed equals the recorded
fallback url (the final step of the fallback chain) and home-directory
resolution is unavailable, the source calls `home_dir().unwrap()`,
which panics (modeled as `none`): the failure is not reported as a
recoverable error, the handler aborts. -/
theorem failed_fallback_home_unavailable_panics (se : String) (via : Bool)
    (back : List String) (fwd : List (Option String)) (u : String) :
    handleEvent none se ⟨via, back, fwd, u⟩
        ⟨EventType.FailedChangePage, u⟩ = none := by
  simp [handleEvent]

/-- C5 as stated fails on the code for the empty failed url: with no
prior fallback recorded (`err_url = ""`), a `FailedChangePage` for the
url `""` satisfies `event.url == err_url` and goes straight home
instead of returning the substitution of the template (which would be
the template with the token deleted). -/
theorem resolve_empty_url_cex :
    handleEvent (some "/home/user") "https://duckduckgo.com/?q=$\x7b\x7d"
        ⟨false, ["x"], [], ""⟩ ⟨EventType.FailedChangePage, ""⟩ =
      some (⟨false, ["x"], [], ""⟩,
        [SinkCmd.loadUri ("file://" ++ "/home/user")]) ∧
    ("file://" ++ "/home/user" : String) ≠
      rustReplace "https://duckduckgo.com/?q=$\x7b\x7d" placeholder "" :=
  ⟨rfl, by decide⟩

/-- C5 amended: for a NONEMPTY failed url `u` (the empty url equals the
empty `lastFallback` and goes home instead) and a template containing
the substitution token, a first failure loads the template with the
token replaced by `u` — a url containing `u` — and records it as the
new fallback; a failure whose url equals the recorded fallback loads
the home location unconditionally (when home resolution succeeds). -/
theorem resolve_fallback (hd se u : String) (via : Bool)
    (back : List String) (fwd : List (Option String))
    (hu : u ≠ "") (hp : placeholder.data <:+: se.data) :
    (handleEvent (some hd) se ⟨via, back, fwd, ""⟩
        ⟨EventType.FailedChangePage, u⟩ =
      some (⟨via, back, fwd, rustReplace se placeholder u⟩,
        [SinkCmd.loadUri (rustReplace se placeholder u)]) ∧
     u.data <:+: (rustReplace se placeholder u).data) ∧
    handleEvent (some hd) se ⟨via, back, fwd, u⟩
        ⟨EventType.FailedChangePage, u⟩ =
      some (⟨via, back, fwd, u⟩,
        [SinkCmd.loadUri ("file://" ++ hd)]) := by
  refine ⟨⟨?_, ?_⟩, ?_⟩
  · simp [handleEvent, hu]
  · exact replaceAll_contains placeholder.data u.data se.data
      (by decide) hp
  · simp [handleEvent]

theorem resolve_fallback_witness :
    (handleEvent (some "/home/user") "https://duckduckgo.com/?q=$\x7b\x7d"
        ⟨false, ["x"], [], ""⟩ ⟨EventType.FailedChangePage, "y"⟩ =
      some (⟨false, ["x"], [],
          rustReplace "https://duckduckgo.com/?q=$\x7b\x7d" placeholder "y"⟩,
        [SinkCmd.loadUri
          (rustReplace "https://duckduckgo.com/?q=$\x7b\x7d" placeholder "y")]) ∧
     ("y" : String).data <:+:
       (rustReplace "https://duckduckgo.com/?q=$\x7b\x7d" placeholder "y").data) ∧
    handleEvent (some "/home/user") "https://duckduckgo.com/?q=$\x7b\x7d"
        ⟨false, ["x"], [], "y"⟩ ⟨EventType.FailedChangePage, "y"⟩ =
      some (⟨false, ["x"], [], "y"⟩,
        [SinkCmd.loadUri ("file://" ++ "/home/user")]) :=
  resolve_fallback "/home/user" "https://duckduckgo.com/?q=$\x7b\x7d" "y"
    false ["x"] [] (by decide) (by decide)

/-- The safety invariant of the handler loop state: every element of
the forward queue is `some` (each was produced by `back_urls.pop()` on
a vector of more than one element), and the visited stack is nonempty
(it is seeded and only popped under the guard `len > 1`). -/
def HistInv (s : BrowserState) : Prop :=
  (∀ o ∈ s.fwd_urls, o ≠ none) ∧ s.back_urls ≠ []

/-- Helper: assuming home resolution succeeds, an invariant-satisfying
state is never made to panic by any single event, and the invariant is
preserved. -/
theorem handleEvent_no_panic (hd se : String) (s : BrowserState)
    (e : Event) (hinv : HistInv s) :
    ∃ s' cmds, handleEvent (some hd) se s e = some (s', cmds) ∧
      HistInv s' := by
  obtain ⟨hfwd, hback⟩ := hinv
  obtain ⟨tp, url⟩ := e
  cases tp with
  | BackClicked =>
    by_cases hb : s.back_urls.length > 1
    · have hne : s.back_urls.dropLast ≠ [] := by
        intro h
        have hl := congrArg List.length h
        simp only [List.length_dropLast, List.length_nil] at hl
        omega
      obtain ⟨cur, hcur⟩ := Option.isSome_iff_exists.mp
        (List.getLast?_isSome.mpr hne)
      refine ⟨{ s with
                  via_nav_btns := true
                  back_urls := s.back_urls.dropLast
                  fwd_urls := s.fwd_urls ++ [s.back_urls.getLast?] },
        [SinkCmd.loadUri cur, SinkCmd.setText cur],
        by simp [handleEvent, hb, hcur], ?_, hne⟩
      intro o ho
      simp only [List.mem_append, List.mem_singleton] at ho
      rcases ho with ho | ho
      · exact hfwd o ho
      · rw [ho]
        exact Option.isSome_iff_ne_none.mp (List.getLast?_isSome.mpr hback)
    · exact ⟨s, [], by simp [handleEvent, hb], hfwd, hback⟩
  | ForwardClicked =>
    rcases hfw : s.fwd_urls with _ | ⟨o, rest⟩
    · exact ⟨s, [], by simp [handleEvent, hfw], hfwd, hback⟩
    · have ho : o ≠ none := hfwd o (by rw [hfw]; exact List.mem_cons_self o rest)
      obtain ⟨u, hu⟩ := Option.ne_none_iff_exists'.mp ho
      refine ⟨{ s with
                  via_nav_btns := true
                  back_urls := s.back_urls ++ [u]
                  fwd_urls := rest },
        [SinkCmd.loadUri u, SinkCmd.setText u],
        by simp [handleEvent, hfw, hu, List.getLast?_concat], ?_, by simp⟩
      intro o' ho'
      exact hfwd o' (by rw [hfw]; exact List.mem_cons_of_mem o ho')
  | RefreshClicked =>
    exact ⟨{ s with via_nav_btns := true }, [SinkCmd.reload],
      by simp [handleEvent], hfwd, hback⟩
  | ChangedPage =>
    by_cases hv : s.via_nav_btns
    · exact ⟨{ s with via_nav_btns := false }, [],
        by simp [handleEvent, hv], hfwd, hback⟩
    · refine ⟨{ s with
                  fwd_urls := []
                  back_urls := s.back_urls ++ [url] }, [SinkCmd.setText url],
        by simp [handleEvent, hv], ?_, by simp⟩
      intro o ho
      simp at ho
  | ChangePage =>
    exact ⟨s, [SinkCmd.loadUri url], by simp [handleEvent], hfwd, hback⟩
  | FailedChangePage =>
    by_cases hu : url = s.err_url
    · exact ⟨s, [SinkCmd.loadUri ("file://" ++ hd)],
        by simp [handleEvent, hu], hfwd, hback⟩
    · exact ⟨{ s with err_url := rustReplace se placeholder url },
        [SinkCmd.loadUri (rustReplace se placeholder url)],
        by simp [handleEvent, hu], hfwd, hback⟩
  | LoginRegister =>
    exact ⟨s, [SinkCmd.showDialog], by simp [handleEvent], hfwd, hback⟩

/-- Helper: the no-panic and invariant-preservation property extends to
whole event sequences. -/
theorem handleEvents_no_panic (hd se : String) (evs : List Event) :
    ∀ s : BrowserState, HistInv s →
      ∃ s', handleEvents (some hd) se s evs = some s' ∧ HistInv s' := by
  induction evs with
  | nil => exact fun s h => ⟨s, rfl, h⟩
  | cons e rest ih =>
    intro s h
    obtain ⟨s', cmds, hstep, hinv'⟩ := handleEvent_no_panic hd se s e h
    obtain ⟨s'', hrun, hinv''⟩ := ih s' hinv'
    refine ⟨s'', ?_, hinv''⟩
    simp only [handleEvents, hstep]
    exact hrun

/-- C10: from the seeded initial state, every event sequence runs to
completion without a history panic (home resolution is assumed to
succeed, which isolates the two history panic sources: the
`fwd_urls[0].unwrap()` and the index `back_urls[back_urls.len() - 1]`),
and afterwards every element of `fwd_urls` is `some` and `back_urls`
is nonempty, so the unwrap and the index are safe on the next event as
well. -/
theorem history_stack_safety (hd se start : String) (evs : List Event) :
    ∃ s', handleEvents (some hd) se (initState start) evs = some s' ∧
      (∀ o ∈ s'.fwd_urls, o ≠ none) ∧ s'.back_urls ≠ [] := by
  refine handleEvents_no_panic hd se evs (initState start) ⟨?_, ?_⟩
  · intro o ho
    simp [initState] at ho
  · simp [initState]
